import Mathlib

/-!
Verification of the recording/voice-key engine of the `html-audio-response`
jsPsych plugin and of the space-key trigger handling of the two
image-keyboard-response plugin variants.

The TypeScript source is shallowly embedded as follows.

* The MediaRecorder callback pipeline of `setupRecordingEvents`
  (`data_available_handler`, `start_event_handler`, `stop_event_handler`,
  the `ResizeObserver` in `showDisplay`, and `stopRecording`) becomes an
  explicit event type `SEv` and a step function `sstep` on a record of the
  plugin's mutable fields.  Bytes are `Nat` (values below 256), timestamps
  are `Int` (the `performance.now()` / `Event.timeStamp` milliseconds,
  rounded), and the base64 payload produced by `FileReader.readAsDataURL`
  is modelled by `base64Encode` as the stream of 6-bit groups (the fixed
  base64 alphabet bijection and the data-URL prefix are omitted).
* The amplitude poll loop `logAmplitudeUntilThresholdReached` becomes
  `watchRun` over the list of poll ticks, each tick carrying the current
  `Date.now()` value and the byte sample window read from the analyser.
  Float arithmetic is idealized over `ℚ`; the `Math.sqrt` comparison is
  embedded by the exact equivalent squared comparison (`exceeds`) and the
  square-root form is recovered over `ℝ` in the theorems.
* The `this.timeout` field of the plugin is declared but never assigned,
  so the guard `Date.now() - this.startTime > this.timeout` compares with
  `undefined`; `jsGtUndef` reproduces JavaScript's behaviour that such a
  comparison is `false`.
* The jsPsych `pluginAPI` timer layer (`setTimeout` / `clearAllTimeouts`)
  is not part of the two source files; it is modelled from the spec as a
  fire-once cancellable timer (`astep`) and as a pending-timer list on the
  trial-controller state (`CState`).
-/

/-! Base64 payload encoding:

`stop_event_handler` (source lines 209-219) concatenates the buffered
chunks into a `Blob` and serializes it with `FileReader.readAsDataURL`,
keeping the base64 part.  `base64Encode` maps the blob's byte list to the
list of 6-bit groups of its base64 form; `base64Decode` is the inverse
used to state the round-trip property. -/

def base64Encode : List Nat → List Nat
  | [] => []
  | [a] => [a / 4, a % 4 * 16]
  | [a, b] => [a / 4, a % 4 * 16 + b / 16, b % 16 * 4]
  | a :: b :: c :: rest =>
      a / 4 :: (a % 4 * 16 + b / 16) :: (b % 16 * 4 + c / 64) :: c % 64 :: base64Encode rest

def base64Decode : List Nat → List Nat
  | [s1, s2] => [s1 * 4 + s2 / 16]
  | [s1, s2, s3] => [s1 * 4 + s2 / 16, s2 % 16 * 16 + s3 / 4]
  | s1 :: s2 :: s3 :: s4 :: rest =>
      (s1 * 4 + s2 / 16) :: (s2 % 16 * 16 + s3 / 4) :: (s3 % 4 * 64 + s4) :: base64Decode rest
  | _ => []

theorem base64_roundtrip (l : List Nat) (h : ∀ b ∈ l, b < 256) :
    base64Decode (base64Encode l) = l := by
  induction l using base64Encode.induct with
  | case1 => rfl
  | case2 a =>
      have ha : a < 256 := h a (by simp)
      simp [base64Encode, base64Decode]
      omega
  | case3 a b =>
      have ha : a < 256 := h a (by simp)
      have hb : b < 256 := h b (by simp)
      simp [base64Encode, base64Decode]
      omega
  | case4 a b c rest ih =>
      have ha : a < 256 := h a (by simp)
      have hb : b < 256 := h b (by simp)
      have hc : c < 256 := h c (by simp)
      have ih' := ih (fun x hx => h x (by simp [hx]))
      simp only [base64Encode, base64Decode, ih']
      have e1 : a / 4 * 4 + (a % 4 * 16 + b / 16) / 16 = a := by omega
      have e2 : (a % 4 * 16 + b / 16) % 16 * 16 + (b % 16 * 4 + c / 64) / 4 = b := by omega
      have e3 : (b % 16 * 4 + c / 64) % 4 * 64 + c % 64 = c := by omega
      simp [e1, e2, e3]

/-! RecordingSession event machine:

State record holding the plugin fields touched by the recording pipeline
(source lines 89-106), and the events delivered to it:

* `SEv.data bytes` — a MediaRecorder `dataavailable` event
  (`data_available_handler`, lines 203-207);
* `SEv.start ts` — the recorder's `start` confirmation event with its
  `timeStamp` (`start_event_handler`, lines 221-252);
* `SEv.layoutReady ts` — the first `ResizeObserver` callback after
  `showDisplay` attached the stimulus (lines 142-149), carrying the
  `performance.now()` value it reads;
* `SEv.stopReq` — the `stopRecording()` call (lines 346-351): it calls
  `recorder.stop()` and creates the pending promise whose resolver is
  stored in `load_resolver`;
* `SEv.stopFired` — the recorder's `stop` event: the handler concatenates
  the chunks into a blob and creates the object URL (lines 209-211);
* `SEv.readerLoaded` — the `FileReader` `load` callback: it stores the
  base64 payload in `response` and then invokes `load_resolver`,
  resolving the promise returned by `stopRecording` (lines 212-218). -/

inductive SEv
  | data (bytes : List Nat)
  | start (ts : Int)
  | layoutReady (ts : Int)
  | stopReq
  | stopFired
  | readerLoaded
  deriving DecidableEq

structure SState where
  chunks : List (List Nat)
  blob : Option (List Nat)
  response : Option (List Nat)
  audio_url : Option (List Nat)
  resolved : Bool
  recorder_start_time : Option Int
  stimulus_start_time : Option Int
  observing : Bool
  clearCount : Nat
  deriving DecidableEq

def initS : SState :=
  { chunks := []
    blob := none
    response := none
    audio_url := none
    resolved := false
    recorder_start_time := none
    stimulus_start_time := none
    observing := false
    clearCount := 0 }

/-- One callback delivery.  `data` appends the fragment only when it is
non-empty (`if (e.data.size > 0)`, line 204); `start` resets the chunk
buffer (`recorded_data_chunks.length = 0`, line 223), records
`recorder_start_time = e.timeStamp` (line 225) and arms the resize
observer via `showDisplay`; `layoutReady` records `stimulus_start_time`
and unobserves (one-shot, lines 143-147); `stopFired` builds the blob
(delivery-order concatenation) and the object URL; `readerLoaded` stores
the encoded payload and calls the resolver.  `audio_url` is modelled by
the byte list the object URL refers to.  `clearCount` is a ghost counter
of buffer clears. -/
def sstep (s : SState) : SEv → SState
  | SEv.data bytes =>
      if bytes.length > 0 then { s with chunks := s.chunks ++ [bytes] } else s
  | SEv.start ts =>
      { s with chunks := [], clearCount := s.clearCount + 1,
               recorder_start_time := some ts, observing := true }
  | SEv.layoutReady ts =>
      if s.observing then { s with stimulus_start_time := some ts, observing := false } else s
  | SEv.stopReq => s
  | SEv.stopFired =>
      { s with blob := some s.chunks.flatten, audio_url := some s.chunks.flatten }
  | SEv.readerLoaded =>
      match s.blob with
      | some b => { s with response := some (base64Encode b), resolved := true }
      | none => s

def srun (evs : List SEv) : SState := evs.foldl sstep initS

/-- The callback order of one complete recording attempt: the recorder's
start confirmation, the first layout callback, the fragment deliveries in
capture order, then the stop request, the recorder's stop event (which
the device layer fires after all fragment deliveries), and the reader's
load callback. -/
def sessionTrace (frags : List (List Nat)) (ts tsL : Int) : List SEv :=
  SEv.start ts :: SEv.layoutReady tsL ::
    (frags.map SEv.data ++ [SEv.stopReq, SEv.stopFired, SEv.readerLoaded])

theorem flatten_filter_pos (frags : List (List Nat)) :
    (frags.filter (fun f => f.length > 0)).flatten = frags.flatten := by
  induction frags with
  | nil => rfl
  | cons f rest ih =>
      by_cases h : f.length > 0
      · simp [List.filter_cons, h, ih]
      · have hf : f = [] := by
          cases f with
          | nil => rfl
          | cons a t => simp at h
        simp [List.filter_cons, h, hf, ih]

theorem foldl_data_events (frags : List (List Nat)) (s : SState) :
    List.foldl sstep s (frags.map SEv.data) =
      { s with chunks := s.chunks ++ frags.filter (fun f => f.length > 0) } := by
  induction frags generalizing s with
  | nil => simp
  | cons f rest ih =>
      by_cases h : f.length > 0
      · simp [sstep, h, ih, List.filter_cons]
      · simp [sstep, h, ih, List.filter_cons]

/-- Running one complete attempt from an arbitrary prior state: only the
ghost clear counter depends on the prior state, every other field is
freshly determined by this attempt (the start handler clears the buffer,
the stop handler rebuilds the blob and URL, the reader callback rewrites
the response). -/
theorem foldl_sessionTrace (frags : List (List Nat)) (ts tsL : Int) (s : SState) :
    List.foldl sstep s (sessionTrace frags ts tsL) =
      { chunks := frags.filter (fun f => f.length > 0)
        blob := some frags.flatten
        response := some (base64Encode frags.flatten)
        audio_url := some frags.flatten
        resolved := true
        recorder_start_time := some ts
        stimulus_start_time := some tsL
        observing := false
        clearCount := s.clearCount + 1 } := by
  simp only [sessionTrace, List.foldl_cons, List.foldl_append]
  rw [show sstep s (SEv.start ts) =
        { s with chunks := [], clearCount := s.clearCount + 1,
                 recorder_start_time := some ts, observing := true } from rfl]
  rw [show ∀ u : SState, u.observing = true →
        sstep u (SEv.layoutReady tsL) =
          { u with stimulus_start_time := some tsL, observing := false } from
      fun u hu => by simp [sstep, hu]]
  · rw [foldl_data_events]
    simp [sstep, flatten_filter_pos]
  · rfl

theorem foldl_no_reader (evs : List SEv) (s : SState) (h : SEv.readerLoaded ∉ evs) :
    (List.foldl sstep s evs).resolved = s.resolved ∧
      (List.foldl sstep s evs).response = s.response := by
  induction evs generalizing s with
  | nil => exact ⟨rfl, rfl⟩
  | cons e rest ih =>
      have he : e ≠ SEv.readerLoaded := fun hc => h (hc ▸ List.mem_cons_self e rest)
      have hrest : SEv.readerLoaded ∉ rest := fun hc => h (List.mem_cons_of_mem e hc)
      have hstep : (sstep s e).resolved = s.resolved ∧ (sstep s e).response = s.response := by
        cases e with
        | data bytes => by_cases hb : bytes.length > 0 <;> simp [sstep, hb]
        | start ts => simp [sstep]
        | layoutReady ts => by_cases ho : s.observing <;> simp [sstep, ho]
        | stopReq => exact ⟨rfl, rfl⟩
        | stopFired => simp [sstep]
        | readerLoaded => exact absurd rfl he
      have := ih (sstep s e) hrest
      exact ⟨hstep.1 ▸ this.1, hstep.2 ▸ this.2⟩

theorem reader_not_mem_dropLast (frags : List (List Nat)) (ts tsL : Int) :
    SEv.readerLoaded ∉
      (SEv.start ts :: SEv.layoutReady tsL ::
        (frags.map SEv.data ++ [SEv.stopReq, SEv.stopFired])) := by
  intro h
  simp only [List.mem_cons, List.mem_append, List.mem_map] at h
  rcases h with h | h | ⟨f, _, h⟩ | h
  · exact SEv.noConfusion h
  · exact SEv.noConfusion h
  · exact SEv.noConfusion h
  · simp at h

theorem sessionTrace_eq_append (frags : List (List Nat)) (ts tsL : Int) :
    sessionTrace frags ts tsL =
      (SEv.start ts :: SEv.layoutReady tsL ::
        (frags.map SEv.data ++ [SEv.stopReq, SEv.stopFired])) ++ [SEv.readerLoaded] := by
  simp [sessionTrace]

/-- C1.  For every recording session and every sequence of delivered
fragments, the future returned by `stopRecording` resolves only after
every buffered fragment has been concatenated and the concatenation fully
encoded into the final payload: at the end of the attempt's callback
sequence the promise is resolved and `response` holds the encoding of the
in-order concatenation of the delivered fragments; and on every proper
prefix of that callback sequence — in particular at every point before
the `FileReader` load callback that completes the encoding — the promise
is unresolved and no payload is available. -/
theorem C1_stop_resolves_only_after_encoding (frags : List (List Nat)) (ts tsL : Int) :
    ((srun (sessionTrace frags ts tsL)).resolved = true ∧
      (srun (sessionTrace frags ts tsL)).response = some (base64Encode frags.flatten)) ∧
    (∀ n, n < (sessionTrace frags ts tsL).length →
      (srun ((sessionTrace frags ts tsL).take n)).resolved = false ∧
      (srun ((sessionTrace frags ts tsL).take n)).response = none) := by
  constructor
  · have h := foldl_sessionTrace frags ts tsL initS
    rw [srun, h]
    exact ⟨rfl, rfl⟩
  · intro n hn
    rw [sessionTrace_eq_append] at hn ⊢
    set pre := (SEv.start ts :: SEv.layoutReady tsL ::
        (frags.map SEv.data ++ [SEv.stopReq, SEv.stopFired])) with hpre
    have hlen : n ≤ pre.length := by
      simp only [List.length_append, List.length_cons, List.length_nil] at hn
      omega
    have htake : (pre ++ [SEv.readerLoaded]).take n = pre.take n := by
      rw [List.take_append_eq_append_take]
      simp [Nat.sub_eq_zero_of_le hlen]
    rw [htake]
    have hmem : SEv.readerLoaded ∉ pre.take n := by
      intro hc
      exact reader_not_mem_dropLast frags ts tsL (List.mem_of_mem_take hc)
    have := foldl_no_reader (pre.take n) initS hmem
    exact ⟨this.1, this.2⟩

/-- Closed instance of `C1_stop_resolves_only_after_encoding` at a
concrete fragment sequence. -/
theorem C1_witness :
    ((srun (sessionTrace [[1, 2], [], [3]] 10 12)).resolved = true ∧
      (srun (sessionTrace [[1, 2], [], [3]] 10 12)).response =
        some (base64Encode ([[1, 2], [], [3]] : List (List Nat)).flatten)) ∧
    (∀ n, n < (sessionTrace [[1, 2], [], [3]] 10 12).length →
      (srun ((sessionTrace [[1, 2], [], [3]] 10 12).take n)).resolved = false ∧
      (srun ((sessionTrace [[1, 2], [], [3]] 10 12).take n)).response = none) :=
  C1_stop_resolves_only_after_encoding [[1, 2], [], [3]] 10 12

/-- C6.  The resolved payload of `stopRecording` is the in-order
concatenation of exactly the non-empty delivered fragments: the chunk
buffer retains precisely the fragments of positive size in delivery
order, the payload decodes back to the concatenation of the delivered
fragments, and its byte length is the sum of all delivered fragment
lengths (zero-length fragments contribute nothing). -/
theorem C6_payload_concatenation (frags : List (List Nat)) (ts tsL : Int)
    (hbytes : ∀ f ∈ frags, ∀ b ∈ f, b < 256) :
    (srun (sessionTrace frags ts tsL)).chunks = frags.filter (fun f => f.length > 0) ∧
    (srun (sessionTrace frags ts tsL)).response = some (base64Encode frags.flatten) ∧
    base64Decode (base64Encode frags.flatten) = frags.flatten ∧
    frags.flatten.length = (frags.map List.length).sum := by
  have h := foldl_sessionTrace frags ts tsL initS
  rw [srun, h]
  refine ⟨rfl, rfl, ?_, List.length_flatten frags⟩
  apply base64_roundtrip
  intro b hb
  rcases List.mem_flatten.mp hb with ⟨f, hf, hbf⟩
  exact hbytes f hf b hbf

/-- Closed instance of `C6_payload_concatenation` at a concrete fragment
sequence containing a zero-length fragment. -/
theorem C6_witness :
    (srun (sessionTrace [[0, 255], [], [7]] 3 5)).chunks =
        ([[0, 255], [], [7]] : List (List Nat)).filter (fun f => f.length > 0) ∧
    (srun (sessionTrace [[0, 255], [], [7]] 3 5)).response =
        some (base64Encode ([[0, 255], [], [7]] : List (List Nat)).flatten) ∧
    base64Decode (base64Encode ([[0, 255], [], [7]] : List (List Nat)).flatten) =
        ([[0, 255], [], [7]] : List (List Nat)).flatten ∧
    ([[0, 255], [], [7]] : List (List Nat)).flatten.length =
        (([[0, 255], [], [7]] : List (List Nat)).map List.length).sum :=
  C6_payload_concatenation [[0, 255], [], [7]] 3 5 (by decide)

def isStartEv : SEv → Bool
  | SEv.start _ => true
  | _ => false

theorem foldl_clearCount (evs : List SEv) (s : SState) :
    (List.foldl sstep s evs).clearCount = s.clearCount + (evs.filter isStartEv).length := by
  induction evs generalizing s with
  | nil => simp
  | cons e rest ih =>
      have hstep : (sstep s e).clearCount =
          s.clearCount + (if isStartEv e then 1 else 0) := by
        cases e with
        | data bytes => by_cases hb : bytes.length > 0 <;> simp [sstep, hb, isStartEv]
        | start ts => simp [sstep, isStartEv]
        | layoutReady ts => by_cases ho : s.observing <;> simp [sstep, ho, isStartEv]
        | stopReq => simp [sstep, isStartEv]
        | stopFired => simp [sstep, isStartEv]
        | readerLoaded => cases hb : s.blob <;> simp [sstep, hb, isStartEv]
      rw [List.foldl_cons, ih, hstep, List.filter_cons]
      by_cases he : isStartEv e
      · simp [he]
        omega
      · simp [he]

/-- C7.  The chunk buffer is cleared exactly once per session, at the
recorder's start confirmation: over any callback sequence the number of
buffer clears equals the number of recorder `start` events.  After a
re-record (`start → stop → start → stop`) the buffer was cleared exactly
twice, the chunk buffer holds only the second attempt's fragments, and
the second resolved payload is the encoding of the second attempt's
fragments alone — it contains no bytes from the first attempt, whatever
the first attempt delivered. -/
theorem C7_chunks_cleared_once_per_session (frags1 frags2 : List (List Nat))
    (ts1 tsL1 ts2 tsL2 : Int) :
    (∀ evs : List SEv, (srun evs).clearCount = (evs.filter isStartEv).length) ∧
    (srun (sessionTrace frags1 ts1 tsL1 ++ sessionTrace frags2 ts2 tsL2)).clearCount = 2 ∧
    (srun (sessionTrace frags1 ts1 tsL1 ++ sessionTrace frags2 ts2 tsL2)).chunks =
        frags2.filter (fun f => f.length > 0) ∧
    (srun (sessionTrace frags1 ts1 tsL1 ++ sessionTrace frags2 ts2 tsL2)).response =
        some (base64Encode frags2.flatten) := by
  have hrun : srun (sessionTrace frags1 ts1 tsL1 ++ sessionTrace frags2 ts2 tsL2) =
      List.foldl sstep (List.foldl sstep initS (sessionTrace frags1 ts1 tsL1))
        (sessionTrace frags2 ts2 tsL2) := by
    rw [srun, List.foldl_append]
  refine ⟨fun evs => by rw [srun, foldl_clearCount]; simp [initS], ?_, ?_, ?_⟩ <;>
    (rw [hrun, foldl_sessionTrace frags1 ts1 tsL1 initS,
         foldl_sessionTrace frags2 ts2 tsL2]
     try rfl)

/-- The record passed to `finishTrial` by `endTrial` (source lines
383-395): reaction time, the embedded base64 payload `response`, the
estimated stimulus onset `Math.round(stimulus_start_time -
recorder_start_time)` (rounding is the identity on the integer
timestamps of this model), and — only when `save_audio_url` is set — the
transient object URL. -/
structure TrialData where
  rt : Option Int
  response : Option (List Nat)
  estimated_stimulus_onset : Int
  audio_url : Option (List Nat)
  deriving DecidableEq

/-- Data gathering of `endTrial` (lines 383-395): `response` is embedded
unconditionally; when `save_audio_url` is true the object URL is added to
the trial data, otherwise it is omitted and `URL.revokeObjectURL` is
called.  The second component records whether the URL was revoked.
Timestamp fields default to 0 when unset; on the modelled flows both are
always set by the start and layout callbacks. -/
def endTrialData (save_audio_url : Bool) (s : SState) (rt : Option Int) :
    TrialData × Bool :=
  ({ rt := rt
     response := s.response
     estimated_stimulus_onset :=
       s.stimulus_start_time.getD 0 - s.recorder_start_time.getD 0
     audio_url := if save_audio_url then s.audio_url else none },
   !save_audio_url)

/-- C8 counterexample.  With the persistence flag off (`save_audio_url =
false`) the trial result still embeds the encoded payload in `response`
and holds no transient reference (`audio_url` is absent and the URL is
revoked) — the opposite of the claim, which says the result then holds
only the transient reference and not the embedded payload. -/
theorem C8_counterexample :
    (endTrialData false
        { initS with response := some [1, 2, 3], audio_url := some [9] }
        (some 800)).1.response = some [1, 2, 3] ∧
    (endTrialData false
        { initS with response := some [1, 2, 3], audio_url := some [9] }
        (some 800)).1.audio_url = none ∧
    (endTrialData false
        { initS with response := some [1, 2, 3], audio_url := some [9] }
        (some 800)).2 = true :=
  ⟨rfl, rfl, rfl⟩

/-- C8 amended.  The final trial result always embeds the encoded payload
in `response`, regardless of the flag; `save_audio_url` controls only the
transient playable reference: when the flag is on the object URL is
included in the result, when it is off the URL is omitted from the result
and revoked. -/
theorem C8_payload_always_embedded_flag_controls_url (save : Bool) (s : SState)
    (rt : Option Int) :
    (endTrialData save s rt).1.response = s.response ∧
    (endTrialData save s rt).1.audio_url = (if save then s.audio_url else none) ∧
    (endTrialData save s rt).2 = !save :=
  ⟨rfl, rfl, rfl⟩

/-- C10.  The stimulus display is created only from within the recorder's
start-confirmation handler, so on the attempt's callback sequence the
recorded stimulus-visible timestamp is the layout callback's time and the
capture-start timestamp is the start event's time; whenever the clock is
monotone across those two callbacks (the layout callback runs after the
start handler armed the observer), the `estimated_stimulus_onset` emitted
in the trial data is non-negative. -/
theorem C10_estimated_onset_nonneg (frags : List (List Nat)) (ts tsL : Int)
    (rt : Option Int) (save : Bool) (hmono : ts ≤ tsL) :
    (srun (sessionTrace frags ts tsL)).recorder_start_time = some ts ∧
    (srun (sessionTrace frags ts tsL)).stimulus_start_time = some tsL ∧
    0 ≤ (endTrialData save (srun (sessionTrace frags ts tsL)) rt).1.estimated_stimulus_onset := by
  have h := foldl_sessionTrace frags ts tsL initS
  rw [srun, h]
  refine ⟨rfl, rfl, ?_⟩
  simp [endTrialData]
  omega

/-- Closed instance of `C10_estimated_onset_nonneg` at a concrete
attempt whose layout callback runs two milliseconds after the start
confirmation. -/
theorem C10_witness :
    (srun (sessionTrace [[4]] 10 12)).recorder_start_time = some 10 ∧
    (srun (sessionTrace [[4]] 10 12)).stimulus_start_time = some 12 ∧
    0 ≤ (endTrialData true (srun (sessionTrace [[4]] 10 12)) (some 750)).1.estimated_stimulus_onset :=
  C10_estimated_onset_nonneg [[4]] 10 12 (some 750) true (by decide)

/-! AmplitudeWatcher — the poll loop of `logAmplitudeUntilThresholdReached`.

Source lines 271-306.  Each poll tick reads the byte time-domain window
from the analyser (`getByteTimeDomainData`), accumulates
`((dataArray[i] - 128) / 128)^2` over the `bufferLength` samples of the
window, takes `Math.sqrt(sum / bufferLength)` and compares it with
`trial.amplitude_threshold`.  Float arithmetic is idealized over `ℚ`. -/

def sumSq : List Nat → ℚ
  | [] => 0
  | s :: rest => (((s : ℚ) - 128) / 128) ^ 2 + sumSq rest

def rmsSq (w : List Nat) : ℚ := sumSq w / (w.length : ℚ)

/-- The tick guard `amplitude > trial.amplitude_threshold` (line 287)
with `amplitude = Math.sqrt(rmsSq w)`.  Over the rationals the strict
comparison with the square root is expressed exactly: it holds iff the
threshold is negative or its square is below the mean square;
`exceeds_iff_sqrt` proves this equivalent to the source's square-root
form over `ℝ`. -/
def exceeds (w : List Nat) (thr : ℚ) : Bool :=
  decide (thr < 0) || decide (thr ^ 2 < rmsSq w)

/-- JavaScript's `x > t` where `t` may be `undefined`: any comparison
with `undefined` is false.  The plugin declares `this.timeout` (line 105)
but never assigns it, so the guard on line 295 runs with `t = none`. -/
def jsGtUndef (x : Int) (t : Option Int) : Bool :=
  match t with
  | none => false
  | some v => decide (v < x)

inductive WatchOutcome
  | onset (t : Int)
  | timedOut (t : Int)
  | polling
  deriving DecidableEq

/-- The poll loop over its tick sequence.  Each tick carries the
`Date.now()` value at which it runs and the sample window it reads.  In
tick order (the 5 ms rescheduling through `pluginAPI.setTimeout`, line
301, delivers ticks one after the other): if the amplitude exceeds the
threshold the promise resolves (lines 287-292) and no further tick is
scheduled; otherwise, if `Date.now() - this.startTime > this.timeout`
the promise rejects (lines 295-298); otherwise the next tick is
scheduled.  An exhausted tick list means the loop is still polling. -/
def watchRun (thr : ℚ) (tmo : Option Int) (startT : Int) :
    List (Int × List Nat) → WatchOutcome
  | [] => WatchOutcome.polling
  | t :: rest =>
      if exceeds t.2 thr then WatchOutcome.onset t.1
      else if jsGtUndef (t.1 - startT) tmo then WatchOutcome.timedOut t.1
      else watchRun thr tmo startT rest

theorem sumSq_cast (w : List Nat) :
    ((sumSq w : ℚ) : ℝ) = (w.map (fun s => (((s : ℝ) - 128) / 128) ^ 2)).sum := by
  induction w with
  | nil => simp [sumSq]
  | cons s rest ih =>
      simp only [sumSq, List.map_cons, List.sum_cons]
      rw [Rat.cast_add, ih]
      congr 1
      push_cast
      ring

theorem exceeds_iff_sqrt (w : List Nat) (thr : ℚ) :
    exceeds w thr = true ↔
      (thr : ℝ) <
        Real.sqrt ((w.map (fun s => (((s : ℝ) - 128) / 128) ^ 2)).sum / (w.length : ℝ)) := by
  have hcast : ((rmsSq w : ℚ) : ℝ) =
      (w.map (fun s => (((s : ℝ) - 128) / 128) ^ 2)).sum / (w.length : ℝ) := by
    simp only [rmsSq, Rat.cast_div, sumSq_cast, Rat.cast_natCast]
  rw [← hcast]
  simp only [exceeds, Bool.or_eq_true, decide_eq_true_eq]
  by_cases hneg : thr < 0
  · constructor
    · intro _
      exact lt_of_lt_of_le (by exact_mod_cast hneg) (Real.sqrt_nonneg _)
    · intro _
      exact Or.inl hneg
  · push_neg at hneg
    rw [Real.lt_sqrt (by exact_mod_cast hneg)]
    constructor
    · rintro (h | h)
      · exact absurd h (not_lt.mpr hneg)
      · exact_mod_cast h
    · intro h
      right
      exact_mod_cast h

theorem watchRun_cons_hit (thr : ℚ) (tmo : Option Int) (startT n0 : Int)
    (w0 : List Nat) (rest : List (Int × List Nat))
    (h : exceeds w0 thr = true) :
    watchRun thr tmo startT ((n0, w0) :: rest) = WatchOutcome.onset n0 := by
  simp [watchRun, h]

theorem watchRun_cons_miss (thr : ℚ) (startT n0 : Int)
    (w0 : List Nat) (rest : List (Int × List Nat))
    (h : exceeds w0 thr = false) :
    watchRun thr none startT ((n0, w0) :: rest) = watchRun thr none startT rest := by
  simp [watchRun, h, jsGtUndef]

/-- C3.  On every poll tick the watcher's amplitude is the root mean
square of the normalized sample window (each byte mapped to
`(s - 128) / 128`, squared, summed, divided by the sample count,
square-rooted): the tick guard holds exactly when that quantity strictly
exceeds the threshold.  On the first tick whose amplitude strictly
exceeds the threshold the watch resolves with that tick's timestamp as
onset and schedules no further polls: whatever ticks would have followed,
the outcome is the onset at the first crossing — a one-shot detector. -/
theorem C3_first_crossing_one_shot_rms (thr : ℚ) (startT : Int)
    (ticks : List (Int × List Nat)) (i : Nat) (now : Int) (w : List Nat)
    (hget : ticks[i]? = some (now, w))
    (hfirst : ∀ p ∈ ticks.take i, exceeds p.2 thr = false)
    (hcross : exceeds w thr = true) :
    (∀ extra, watchRun thr none startT (ticks ++ extra) = WatchOutcome.onset now) ∧
    (∀ (w2 : List Nat) (thr2 : ℚ), exceeds w2 thr2 = true ↔
      (thr2 : ℝ) <
        Real.sqrt ((w2.map (fun s => (((s : ℝ) - 128) / 128) ^ 2)).sum / (w2.length : ℝ))) := by
  refine ⟨?_, fun w2 thr2 => exceeds_iff_sqrt w2 thr2⟩
  induction ticks generalizing i with
  | nil => simp at hget
  | cons p rest ih =>
      intro extra
      obtain ⟨n0, w0⟩ := p
      cases i with
      | zero =>
          have hp : (n0, w0) = (now, w) := by simpa using hget
          rw [Prod.mk.injEq] at hp
          rw [hp.1, hp.2] at *
          rw [List.cons_append, watchRun_cons_hit _ none _ _ _ _ hcross]
      | succ j =>
          have hp : exceeds w0 thr = false := hfirst (n0, w0) (by simp [List.take_cons])
          have hj : rest[j]? = some (now, w) := by simpa using hget
          have hf : ∀ q ∈ rest.take j, exceeds q.2 thr = false := by
            intro q hq
            exact hfirst q (by simp [List.take_cons, hq])
          have hrest := ih j hj hf extra
          rw [List.cons_append, watchRun_cons_miss _ _ _ _ _ hp]
          exact hrest

theorem exceeds_silent_window : exceeds [128] (1 / 10) = false := by
  norm_num [exceeds, rmsSq, sumSq]

theorem exceeds_quiet_window : exceeds [134] (1 / 10) = false := by
  norm_num [exceeds, rmsSq, sumSq]

theorem exceeds_loud_window : exceeds [200] (1 / 10) = true := by
  norm_num [exceeds, rmsSq, sumSq]

/-- Closed instance of `C3_first_crossing_one_shot_rms`: with threshold
0.1, a first silent tick (window at the 128 center, amplitude 0) and a
second loud tick (window at 200, amplitude 0.5625), the watch resolves at
the second tick's timestamp and ignores any later ticks. -/
theorem C3_witness :
    (∀ extra, watchRun (1 / 10) none 0 ([(3, [128]), (7, [200])] ++ extra) =
      WatchOutcome.onset 7) ∧
    (∀ (w2 : List Nat) (thr2 : ℚ), exceeds w2 thr2 = true ↔
      (thr2 : ℝ) <
        Real.sqrt ((w2.map (fun s => (((s : ℝ) - 128) / 128) ^ 2)).sum / (w2.length : ℝ))) :=
  C3_first_crossing_one_shot_rms (1 / 10) 0 [(3, [128]), (7, [200])] 1 7 [200] (by simp)
    (by
      intro p hp
      simp at hp
      subst hp
      exact exceeds_silent_window)
    exceeds_loud_window

/-- C2 is false of the code: the plugin never assigns `this.timeout`, so
the deadline guard on line 295 compares the elapsed time with
`undefined` and never triggers.  Below threshold for the whole window,
the watcher neither times out at any deadline nor stops: after any
number of polls, at timestamps arbitrarily far past any deadline, it is
still polling. -/
theorem C2_timeout_never_fires (n : Nat) :
    watchRun (1 / 10) none 0 (List.replicate n ((10 ^ 9 : Int), [134])) =
      WatchOutcome.polling := by
  induction n with
  | zero => rfl
  | succ k ih =>
      rw [List.replicate_succ, watchRun_cons_miss _ _ _ _ _ exceeds_quiet_window]
      exact ih

/-! AlertScheduler.

On resolution of the amplitude watch, `startRecording` (lines 330-341)
schedules the alert callback (`showAlertImage(); playAlertSound()`)
through `pluginAPI.setTimeout` with delay `trial.timer_duration`;
`endTrial` cancels it with `pluginAPI.clearAllTimeouts` (line 381). -/

inductive AEv
  | fire
  | cancel
  deriving DecidableEq

structure ASt where
  armed : Bool
  fireCount : Nat
  deriving DecidableEq

/-- Modelled from the spec: the jsPsych `pluginAPI` timer layer
(`setTimeout` / `clearAllTimeouts`) is repository code outside the two
source files.  A scheduled timer is armed once; a `fire` event runs the
callback only if the timer is still armed and disarms it (a timeout
fires at most once); a `cancel` event (`clearAllTimeouts`) disarms it
without running the callback. -/
def astep (s : ASt) : AEv → ASt
  | AEv.fire => if s.armed then { armed := false, fireCount := s.fireCount + 1 } else s
  | AEv.cancel => { s with armed := false }

def alertFireCount (evs : List AEv) : Nat :=
  (evs.foldl astep { armed := true, fireCount := 0 }).fireCount

/-- Modelled from the spec: the single-threaded event loop delivers the
timer's fire event at time `onset + delay` and the cancellation at
`cancelT`, in time order; a cancellation issued strictly before the fire
time runs first, otherwise the already-due timer fires first. -/
def alertTimeline (onset delay cancelT : Int) : List AEv :=
  if cancelT < onset + delay then [AEv.cancel, AEv.fire] else [AEv.fire, AEv.cancel]

theorem alertFireCount_le_one_aux (evs : List AEv) (s : ASt)
    (h : s.armed = false → s.fireCount ≤ 1) (h1 : s.fireCount ≤ 1)
    (h0 : s.armed = true → s.fireCount = 0) :
    (List.foldl astep s evs).fireCount ≤ 1 := by
  induction evs generalizing s with
  | nil => exact h1
  | cons e rest ih =>
      cases e with
      | fire =>
          by_cases ha : s.armed = true
          · have := h0 ha
            refine ih _ ?_ ?_ ?_ <;> simp [astep, ha, this]
          · have ha' : s.armed = false := by revert ha; cases s.armed <;> simp
            refine ih _ ?_ ?_ ?_ <;> simp [astep, ha', h ha', h0]
      | cancel =>
          refine ih _ ?_ ?_ ?_ <;> simp [astep]
          · by_cases ha : s.armed = true
            · exact (h0 ha) ▸ Nat.zero_le 1
            · have ha' : s.armed = false := by revert ha; cases s.armed <;> simp
              exact h ha'
          · by_cases ha : s.armed = true
            · exact le_trans (Nat.le_of_eq (h0 ha)) (Nat.zero_le 1)
            · have ha' : s.armed = false := by revert ha; cases s.armed <;> simp
              exact h ha'

/-- C4.  For every trial attempt in which an onset is detected, the alert
callback scheduled `timer_duration` after the onset fires exactly zero
times when the attempt's cancellation (`clearAllTimeouts`) happens
strictly before `onset + delay`, exactly once otherwise, and never more
than once under any interleaving of fire and cancellation events. -/
theorem C4_alert_fires_once_unless_cancelled (onset delay cancelT : Int) :
    alertFireCount (alertTimeline onset delay cancelT) =
      (if cancelT < onset + delay then 0 else 1) ∧
    (∀ evs : List AEv, alertFireCount evs ≤ 1) := by
  constructor
  · by_cases h : cancelT < onset + delay <;>
      simp [alertTimeline, alertFireCount, astep, h]
  · intro evs
    exact alertFireCount_le_one_aux evs _ (by simp) (by simp) (by simp)

/-! TrialController timers and the playback-review path.

The four timer-like operations the plugin keeps through `pluginAPI`: the
stimulus-hide timer (lines 230-234), the recording-duration timer (lines
237-251), the amplitude poll loop (line 301) and the alert timer (line
335).  `pluginAPI.clearAllTimeouts` — modelled from the spec, as the
timer layer is repository code outside the two source files — cancels
every pending one at once; the plugin calls it only inside `endTrial`
(line 381). -/

inductive TimerK
  | stimHide
  | recDur
  | poll
  | alert
  deriving DecidableEq

structure CState where
  pending : List TimerK
  recorderActive : Bool
  playbackShown : Bool
  finished : Bool
  deriving DecidableEq

def initC : CState :=
  { pending := [], recorderActive := false, playbackShown := false, finished := false }

/-- Model of `startRecording` (lines 318-344): starts the recorder and launches
the amplitude poll loop. -/
def startRecordingC (s : CState) : CState :=
  { s with recorderActive := true, pending := s.pending ++ [TimerK.poll] }

/-- Model of `start_event_handler` (lines 229-251): schedules the stimulus-hide
timer when `stimulus_duration` is set and the recording-duration timer
when `recording_duration` is set. -/
def startHandlerC (stimDur recDur : Option Nat) (s : CState) : CState :=
  { s with pending := s.pending ++
      (if stimDur.isSome then [TimerK.stimHide] else []) ++
      (if recDur.isSome then [TimerK.recDur] else []) }

/-- Threshold crossing (lines 287-292 and 330-341): the poll loop stops
rescheduling itself and the alert timer is scheduled. -/
def onsetC (s : CState) : CState :=
  { s with pending := s.pending.erase TimerK.poll ++ [TimerK.alert] }

/-- Model of `stopRecording` (lines 346-351): stops the recorder; cancels no
timers. -/
def stopRecordingC (s : CState) : CState :=
  { s with recorderActive := false }

/-- Model of `showPlaybackControls` (lines 353-364): swaps the display for the
playback controls; cancels no timers. -/
def showPlaybackControlsC (s : CState) : CState :=
  { s with playbackShown := true }

/-- Model of `endTrial` (lines 373-402): `clearAllTimeouts` cancels every pending
timer, then the trial finishes. -/
def endTrialC (s : CState) : CState :=
  { s with pending := [], finished := true }

/-- The done-button handler (lines 188-198) and the recording-duration
handler (lines 238-250): stop the recording, then either show the
playback controls (`allow_playback` true) or end the trial. -/
def manualStopC (allowPlayback : Bool) (s : CState) : CState :=
  if allowPlayback then showPlaybackControlsC (stopRecordingC s)
  else endTrialC (stopRecordingC s)

/-- C5 is false of the code on the playback-review path: after a manual
stop with `allow_playback` enabled, the end-of-attempt event runs
`stopRecording` and `showPlaybackControls` only — `clearAllTimeouts`
lives solely in `endTrial` — so the stimulus-hide timer, the
recording-duration timer and the alert timer all stay pending after the
attempt has ended, and the alert callback can still run during playback
review.  On the non-playback path the same event does cancel every
pending timer. -/
theorem C5_playback_path_leaves_timers_active :
    (manualStopC true
        (onsetC (startHandlerC (some 1500) (some 2000) (startRecordingC initC)))).pending =
      [TimerK.stimHide, TimerK.recDur, TimerK.alert] ∧
    (manualStopC true
        (onsetC (startHandlerC (some 1500) (some 2000) (startRecordingC initC)))).playbackShown =
      true ∧
    (manualStopC false
        (onsetC (startHandlerC (some 1500) (some 2000) (startRecordingC initC)))).pending =
      [] := by
  refine ⟨rfl, rfl, rfl⟩

/-! The two image-keyboard `after_response` variants.

The space-key branch of `after_response` when a trigger has already been
reached: the unnamed variant (source part_000, lines 789-802) and the
`plugin-image-keyboard-response-logger` variant (index.ts, lines
619-633).  Both push the current word, clear the buffer, swap the
stimulus image — but they assign `eventTime` with opposite sign
conventions. -/

structure KState where
  words : List String
  buffer : String
  wholebuffer : String
  triggered : Bool
  eventTime : Option Int
  deriving DecidableEq

/-- Space-key branch of the unnamed variant (part_000 lines 789-802):
on a space with `space_allowed`, push the buffer as a word and clear it;
if a trigger was reached, swap the image and set
`eventTime = startTime - performance.now()`. -/
def spaceKeyA (space_allowed : Bool) (startTime now : Int) (s : KState) : KState :=
  if space_allowed then
    { s with words := s.words ++ [s.buffer], buffer := "",
             eventTime := if s.triggered then some (startTime - now) else s.eventTime,
             wholebuffer := s.wholebuffer ++ " " }
  else
    { s with buffer := s.buffer ++ " ", wholebuffer := s.wholebuffer ++ " " }

/-- Space-key branch of the logger variant (index.ts lines 619-633):
identical except that it sets `eventTime = performance.now() - startTime`. -/
def spaceKeyB (space_allowed : Bool) (startTime now : Int) (s : KState) : KState :=
  if space_allowed then
    { s with words := s.words ++ [s.buffer], buffer := "",
             eventTime := if s.triggered then some (now - startTime) else s.eventTime,
             wholebuffer := s.wholebuffer ++ " " }
  else
    { s with buffer := s.buffer ++ " ", wholebuffer := s.wholebuffer ++ " " }

/-- C9 is false of the code: for the same keypress history (trigger
reached, then a space 250 ms after trial start), the unnamed variant
records `eventTime = startTime - now = -250` while the logger variant
records `now - startTime = 250`; the sign conventions are opposite, the
first is negative, and the two variants disagree — there is no single
non-negative elapsed-since-start convention.  The rest of the state
(words, buffers) evolves identically. -/
theorem C9_event_time_sign_mismatch :
    (spaceKeyA true 1000 1250
        { words := [], buffer := "word", wholebuffer := "word",
          triggered := true, eventTime := none }).eventTime = some (-250) ∧
    (spaceKeyB true 1000 1250
        { words := [], buffer := "word", wholebuffer := "word",
          triggered := true, eventTime := none }).eventTime = some 250 ∧
    (spaceKeyA true 1000 1250
        { words := [], buffer := "word", wholebuffer := "word",
          triggered := true, eventTime := none }).eventTime ≠
      (spaceKeyB true 1000 1250
        { words := [], buffer := "word", wholebuffer := "word",
          triggered := true, eventTime := none }).eventTime ∧
    (spaceKeyA true 1000 1250
        { words := [], buffer := "word", wholebuffer := "word",
          triggered := true, eventTime := none }).words =
      (spaceKeyB true 1000 1250
        { words := [], buffer := "word", wholebuffer := "word",
          triggered := true, eventTime := none }).words := by
  refine ⟨rfl, rfl, by decide, rfl⟩
